import Mathlib

/-!
Verification development for the ffvoice-engine real-time audio core.

This file gives a shallow embedding of the two components the claims are
about, translated from the repository sources:

* `VADSegmenter` (src/src/audio/vad_segmenter.cpp / .h): a voice-activity
  driven segmentation state machine.  Samples are modelled as `ℤ` (int16
  values), VAD probabilities and thresholds as `ℚ` (exact stand-ins for the
  float values; the only float operation performed on them in the source is
  an order comparison, which ℚ models faithfully for every non-NaN float).
* `RNNoiseProcessor` (src/src/audio/rnnoise_processor.cpp): the frame
  rebuffering / denoising adapter.  float32 samples are modelled as `ℚ`;
  the single rounding float operation on the data path (the multiply by
  32767.0f on output conversion) is modelled exactly by `rnd32`, a
  round-to-nearest-even at 24 bits of precision.  The external model
  library (rnnoise) is abstracted as a stateful per-frame transform.
-/

set_option maxHeartbeats 1000000
set_option maxRecDepth 8000

namespace FFVoice

/-- Configuration of the segmenter, from `VADSegmenter::Config`
(vad_segmenter.h lines 35-40).  `speech_threshold` is a float in the
source, modelled as `ℚ`; the two frame counts are C++ `int`, modelled as
`ℤ`; `max_segment_samples` is `size_t`, modelled as `ℕ`. -/
structure VSConfig where
  speech_threshold : ℚ
  min_speech_frames : ℤ
  min_silence_frames : ℤ
  max_segment_samples : ℕ
deriving DecidableEq, Repr

/-- Mutable state of the segmenter, from the private fields of
`VADSegmenter` (vad_segmenter.h lines 104-108). -/
structure VSState where
  buffer : List ℤ
  speech_frames : ℤ
  silence_frames : ℤ
  in_speech : Bool
deriving DecidableEq, Repr

/-- The state a freshly constructed `VADSegmenter` is in (all counters
zero, empty buffer, not in speech). -/
def vsInit : VSState := ⟨[], 0, 0, false⟩

/-- `VADSegmenter::ProcessFrame` (vad_segmenter.cpp lines 23-67).
Returns the successor state together with `some payload` when the segment
callback would be invoked with `payload` (the source invokes it exactly
when a termination condition holds and the accumulated buffer is
non-empty), and `none` otherwise. -/
def vsStep (cfg : VSConfig) (st : VSState) (samples : List ℤ) (vad_prob : ℚ) :
    VSState × Option (List ℤ) :=
  -- bool is_speech = vad_prob >= config_.speech_threshold;
  let is_speech : Bool := decide (cfg.speech_threshold ≤ vad_prob)
  let st1 : VSState :=
    if is_speech then
      -- speech_frames_++; silence_frames_ = 0;
      -- if (!in_speech_ && speech_frames_ >= config_.min_speech_frames) in_speech_ = true;
      { st with
        speech_frames := st.speech_frames + 1
        silence_frames := 0
        in_speech := st.in_speech || decide (cfg.min_speech_frames ≤ st.speech_frames + 1) }
    else
      -- silence_frames_++; speech_frames_ = 0;
      { st with silence_frames := st.silence_frames + 1, speech_frames := 0 }
  if st1.in_speech then
    -- buffer_.insert(buffer_.end(), samples, samples + num_samples);
    let buf := st1.buffer ++ samples
    -- bool max_length_reached = buffer_.size() >= config_.max_segment_samples;
    let maxLenReached : Bool := decide (cfg.max_segment_samples ≤ buf.length)
    -- bool silence_detected = silence_frames_ >= config_.min_silence_frames;
    let silenceDetected : Bool := decide (cfg.min_silence_frames ≤ st1.silence_frames)
    if maxLenReached || silenceDetected then
      -- if (on_segment && !buffer_.empty()) on_segment(...); then clear state
      (⟨[], 0, 0, false⟩, if buf.isEmpty then none else some buf)
    else
      ({ st1 with buffer := buf }, none)
  else
    (st1, none)

/-- `VADSegmenter::Flush` (vad_segmenter.cpp lines 69-85). -/
def vsFlush (st : VSState) : VSState × Option (List ℤ) :=
  (⟨[], 0, 0, false⟩, if st.buffer.isEmpty then none else some st.buffer)

/-- `VADSegmenter::Reset` (vad_segmenter.cpp lines 87-93). -/
def vsReset (_st : VSState) : VSState := ⟨[], 0, 0, false⟩

/-- Driving the segmenter over a list of `(samples, vad_prob)` frames,
collecting every callback payload in order. -/
def vsRun (cfg : VSConfig) : VSState → List (List ℤ × ℚ) → VSState × List (List ℤ)
  | st, [] => (st, [])
  | st, f :: rest =>
    let r := vsStep cfg st f.1 f.2
    let rr := vsRun cfg r.1 rest
    (rr.1, r.2.toList ++ rr.2)

/-- `VADSegmenter::GetBufferSize` (vad_segmenter.h line 95). -/
def vsGetBufferSize (st : VSState) : ℕ := st.buffer.length

/-- `VADSegmenter::IsInSpeech` (vad_segmenter.h line 101). -/
def vsIsInSpeech (st : VSState) : Bool := st.in_speech

/-- The fold `speech_frames_` performs over a probability stream while the
segmenter never enters speech: incremented on a speech-classified frame,
zeroed on silence. -/
def speechRun (thr : ℚ) (k : ℤ) (ps : List ℚ) : ℤ :=
  ps.foldl (fun c p => if thr ≤ p then c + 1 else 0) k

/-- The corresponding fold for `silence_frames_`. -/
def silenceRun (thr : ℚ) (k : ℤ) (ps : List ℚ) : ℤ :=
  ps.foldl (fun c p => if thr ≤ p then 0 else c + 1) k

/-- Reachable-state invariant of the segmenter used for the cap claim:
outside a speech segment the buffer is empty, and inside one it is
strictly below the configured cap (an emission would otherwise have
cleared it at the end of the call that filled it). -/
def vsInv (cfg : VSConfig) (st : VSState) : Prop :=
  (st.in_speech = false → st.buffer = []) ∧
  (st.in_speech = true → st.buffer.length < cfg.max_segment_samples)

instance (cfg : VSConfig) (st : VSState) : Decidable (vsInv cfg st) := by
  unfold vsInv
  infer_instance


/-- std::clamp(v, -1.0f, 1.0f) on exact values (rnnoise_processor.cpp
line 134). -/
def clampQ (lo hi v : ℚ) : ℚ := max lo (min v hi)

/-- Round half to even to an integer (the IEEE-754 default rounding
direction used by the float multiply on the output path). -/
def rne (t : ℚ) : ℤ :=
  let f := ⌊t⌋
  let r := t - (f : ℚ)
  if r < 1/2 then f
  else if 1/2 < r then f + 1
  else if f % 2 = 0 then f else f + 1

/-- binary32 round-to-nearest-even of an exact value: round to the
nearest multiple of `2 ^ (exponent - 23)`.  Overflow and subnormals are
not modelled; every value reaching this function in the embedding has
magnitude in `[2 ^ -15, 2 ^ 15]`, far inside binary32's normal range. -/
def rnd32 (q : ℚ) : ℚ :=
  if q = 0 then 0
  else
    let e := Int.log 2 |q|
    let u : ℚ := (2 : ℚ) ^ (e - 23)
    (if q < 0 then -1 else 1) * ((rne (|q| / u) : ℚ) * u)

/-- static_cast<int16_t> applied to a float value in int16 range:
truncation toward zero (rnnoise_processor.cpp line 135). -/
def truncQ (v : ℚ) : ℤ := if v < 0 then ⌈v⌉ else ⌊v⌋

/-- `samples[i] / 32768.0f` (rnnoise_processor.cpp line 93).  Exact in
binary32 for every int16 value, hence no rounding is modelled here. -/
def i16ToFloat (x : ℤ) : ℚ := (x : ℚ) / 32768

/-- `static_cast<int16_t>(std::clamp(v, -1.0f, 1.0f) * 32767.0f)`
(rnnoise_processor.cpp lines 134-135).  The multiply is the one rounding
binary32 operation on the data path and is modelled by `rnd32`. -/
def floatToI16 (v : ℚ) : ℤ := truncQ (rnd32 (clampQ (-1) 1 v * 32767))

/-- The int16 → float → int16 conversion round-trip that `Process`
applies to every sample position, completed frame or not. -/
def i16RoundTrip (x : ℤ) : ℤ := floatToI16 (i16ToFloat x)

/-- Persistent state of `RNNoiseProcessor`: the abstract per-channel
model state `σ` (the `states_` array of opaque rnnoise handles), the
rebuffer and its write cursor (`rebuffer_`, `rebuffer_pos_`), the stored
`last_vad_prob_`, and a ghost trace `vtrace` recording the VAD value of
every analysis frame drained so far (the observable outputs of
`ProcessFrame`, used only in specifications). -/
structure RNState (σ : Type) where
  ms : σ
  rebuf : List ℚ
  pos : ℕ
  lastVad : ℚ
  vtrace : List ℚ

/-- The write-back loop of `Process` (rnnoise_processor.cpp lines
121-126): the processed frame is copied to the float buffer starting at
`output_start`, each position guarded by `output_start + i <
num_samples`.  `List.set` ignores out-of-range indices, which models the
guard exactly. -/
def writeBack : List ℚ → ℕ → List ℚ → List ℚ
  | flt, _, [] => flt
  | flt, s, v :: rest => writeBack (flt.set s v) (s + 1) rest

/-- The rebuffering while-loop of `RNNoiseProcessor::Process`
(rnnoise_processor.cpp lines 96-130) over the float buffer `flt`.

`ftotal` is `frame_size_ * channels_` (computed exactly here, so the
defensive size_t-overflow check of lines 101-106 can never fire and is
not modelled).  `pf` abstracts the body of `ProcessFrame` (lines
144-173): per-channel de-interleaving, the external
`rnnoise_process_frame` calls and re-interleaving, returning the new
model state, the processed interleaved frame, and the per-frame VAD
probability averaged over channels; `last_vad_prob_` is updated from it
only when `config_.enable_vad` is set (lines 166-168).  `fuel` bounds the
iteration count; every theorem supplies `fuel ≥` the remaining input, which
is enough since each iteration consumes at least one sample when
`0 < ftotal` and `pos < ftotal`. -/
def procLoop (ftotal : ℕ) (enableVad : Bool) {σ : Type}
    (pf : σ → List ℚ → σ × List ℚ × ℚ) :
    ℕ → RNState σ → List ℚ → ℕ → RNState σ × List ℚ
  | 0, st, flt, _ => (st, flt)
  | fuel + 1, st, flt, inputPos =>
    if inputPos < flt.length then
      -- size_t to_copy = min(remaining_in_rebuffer, remaining_in_input);
      let toCopy := min (ftotal - st.pos) (flt.length - inputPos)
      -- std::copy(float_buffer + input_pos, ..., rebuffer + rebuffer_pos);
      let chunk := (flt.drop inputPos).take toCopy
      let rebuf1 := st.rebuf.take st.pos ++ chunk ++ st.rebuf.drop (st.pos + toCopy)
      let pos1 := st.pos + toCopy
      let inputPos1 := inputPos + toCopy
      if ftotal ≤ pos1 then
        -- ProcessFrame(rebuffer_.data(), frame_size_);
        let r := pf st.ms rebuf1
        -- size_t output_start = input_pos - to_copy; copy back; rebuffer_pos_ = 0;
        let flt1 := writeBack flt (inputPos1 - toCopy) r.2.1
        procLoop ftotal enableVad pf fuel
          ⟨r.1, r.2.1, 0, if enableVad then r.2.2 else st.lastVad,
            st.vtrace ++ [r.2.2]⟩ flt1 inputPos1
      else
        procLoop ftotal enableVad pf fuel
          ⟨st.ms, rebuf1, pos1, st.lastVad, st.vtrace⟩ flt inputPos1
    else (st, flt)

/-- `RNNoiseProcessor::Process` (rnnoise_processor.cpp lines 83-142) in
the build with the noise-suppression library: int16 → float conversion,
the rebuffering loop, then float → int16 conversion of every position.
(The `num_samples == 0` early return coincides with the empty-list
behavior.) -/
def rnProcess (ftotal : ℕ) (enableVad : Bool) {σ : Type}
    (pf : σ → List ℚ → σ × List ℚ × ℚ) (st : RNState σ) (samples : List ℤ) :
    RNState σ × List ℤ :=
  let flt := samples.map i16ToFloat
  let r := procLoop ftotal enableVad pf flt.length st flt 0
  (r.1, r.2.map floatToI16)

/-- The state `RNNoiseProcessor::Initialize` leaves the processor in
(rnnoise_processor.cpp lines 46-63): zeroed rebuffer of
`frame_size_ * channels_` floats, cursor 0, fresh model states.
Modelled from the spec: the header `rnnoise_processor.h` is not in the
repository snapshot; per the degraded-mode description ("VAD probability
fixed at 0") and the scenario "GetVADProbability() returns 0.0 after
processing any input" the stored last VAD probability starts at 0. -/
def rnInit (ftotal : ℕ) {σ : Type} (ms : σ) : RNState σ :=
  ⟨ms, List.replicate ftotal 0, 0, 0, []⟩

/-- `RNNoiseProcessor::Reset` (rnnoise_processor.cpp lines 175-207):
cursor to 0, stored VAD probability to 0, rebuffer zero-filled, model
states destroyed and recreated (`freshMs`; the recreation-failure
rollback path concerns only the external handles and is not modelled). -/
def rnReset {σ : Type} (st : RNState σ) (freshMs : σ) : RNState σ :=
  ⟨freshMs, List.replicate st.rebuf.length 0, 0, 0, []⟩

/-- Modelled from the spec: the accessor `GetVADProbability()` lives in
the missing header `rnnoise_processor.h`; per §6/§8 of the spec it
returns the stored last VAD probability field. -/
def getVADProbability {σ : Type} (st : RNState σ) : ℚ := st.lastVad

/-- A sequence of `Process` calls, tracking only the processor state. -/
def rnProcessCalls (ftotal : ℕ) (enableVad : Bool) {σ : Type}
    (pf : σ → List ℚ → σ × List ℚ × ℚ) (st : RNState σ)
    (calls : List (List ℤ)) : RNState σ :=
  calls.foldl (fun s c => (rnProcess ftotal enableVad pf s c).1) st

/-- The sample-rate validation of `RNNoiseProcessor::Initialize` in the
library-enabled build (rnnoise_processor.cpp lines 39-43). -/
def sampleRateSupported (sample_rate : ℤ) : Bool :=
  !(sample_rate ≠ 48000 ∧ sample_rate ≠ 44100 ∧ sample_rate ≠ 24000)

/-- Return value of `Initialize` in the library-enabled build
(rnnoise_processor.cpp lines 37-71): false on an unsupported sample rate,
otherwise the success of the external `rnnoise_create` calls, abstracted
as `createOk`. -/
def rnInitEnabledOk (createOk : Bool) (sample_rate : ℤ) (_channels : ℤ) : Bool :=
  if sample_rate ≠ 48000 ∧ sample_rate ≠ 44100 ∧ sample_rate ≠ 24000 then false
  else createOk

/-- Return value of `Initialize` in the passthrough build
(rnnoise_processor.cpp lines 72-80): unconditionally true — no
validation is performed. -/
def rnInitPassthroughOk (_sample_rate : ℤ) (_channels : ℤ) : Bool := true

/-- The trivial frame transform used to instantiate abstract model
parameters in concrete counterexamples (identity on audio, VAD 0). -/
def pfId : Unit → List ℚ → Unit × List ℚ × ℚ := fun u f => (u, f, 0)

/-- First input position of a `Process` call not covered by any
completed-frame write-back: `k` full frames complete, the first
write-back spans `[0, ftotal)` and the last ends at `k * ftotal - pos`. -/
def untouchedBound (ftotal pos n : ℕ) : ℕ :=
  if (pos + n) / ftotal = 0 then 0 else max ftotal ((pos + n) / ftotal * ftotal - pos)

/-- Concrete configuration of the spec's basic segmentation scenario
(speech_threshold 0.5, min_speech_frames 3, min_silence_frames 3, default
max_segment_samples 480000). -/
def c4Config : VSConfig := ⟨mkRat 1 2, 3, 3, 480000⟩

/-- Ten frames of 480 samples at VAD probability 0.9. -/
def c4Speech : List (List ℤ × ℚ) := List.replicate 10 (List.replicate 480 0, mkRat 9 10)

/-- Five frames of 480 samples at VAD probability 0.1. -/
def c4Silence : List (List ℤ × ℚ) := List.replicate 5 (List.replicate 480 0, mkRat 1 10)

theorem speechRun_nil (thr : ℚ) (k : ℤ) : speechRun thr k [] = k := rfl

theorem speechRun_cons_speech {thr p : ℚ} (k : ℤ) (l : List ℚ) (h : thr ≤ p) :
    speechRun thr k (p :: l) = speechRun thr (k + 1) l := by
  simp [speechRun, h]

theorem speechRun_cons_silence {thr p : ℚ} (k : ℤ) (l : List ℚ) (h : ¬ thr ≤ p) :
    speechRun thr k (p :: l) = speechRun thr 0 l := by
  simp [speechRun, h]

theorem silenceRun_cons_speech {thr p : ℚ} (k : ℤ) (l : List ℚ) (h : thr ≤ p) :
    silenceRun thr k (p :: l) = silenceRun thr 0 l := by
  simp [silenceRun, h]

theorem silenceRun_cons_silence {thr p : ℚ} (k : ℤ) (l : List ℚ) (h : ¬ thr ≤ p) :
    silenceRun thr k (p :: l) = silenceRun thr (k + 1) l := by
  simp [silenceRun, h]

theorem speechRun_all_speech {thr : ℚ} (l : List ℚ) (k : ℤ)
    (h : ∀ x ∈ l, thr ≤ x) : speechRun thr k l = k + l.length := by
  induction l generalizing k with
  | nil => simp [speechRun]
  | cons p rest ih =>
    rw [speechRun_cons_speech k rest (h p (by simp))]
    rw [ih (k + 1) (fun x hx => h x (by simp [hx]))]
    simp only [List.length_cons]
    push_cast
    ring

/-- One `ProcessFrame` call on a speech-classified frame that does not yet
reach the debounce threshold: counters advance, no accumulation,
no callback. -/
theorem vsStep_speech_noflip {cfg : VSConfig} {st : VSState} {p : ℚ}
    (s : List ℤ) (h1 : cfg.speech_threshold ≤ p) (h2 : st.in_speech = false)
    (h3 : st.speech_frames + 1 < cfg.min_speech_frames) :
    vsStep cfg st s p =
      ({ st with speech_frames := st.speech_frames + 1, silence_frames := 0 }, none) := by
  have h3' : ¬ cfg.min_speech_frames ≤ st.speech_frames + 1 := not_le.mpr h3
  simp [vsStep, h1, h2, h3']

/-- One `ProcessFrame` call on a silence-classified frame while not in
speech: counters advance, no accumulation, no callback. -/
theorem vsStep_silence_notin {cfg : VSConfig} {st : VSState} {p : ℚ}
    (s : List ℤ) (h1 : ¬ cfg.speech_threshold ≤ p) (h2 : st.in_speech = false) :
    vsStep cfg st s p =
      ({ st with silence_frames := st.silence_frames + 1, speech_frames := 0 }, none) := by
  simp [vsStep, h1, h2]

/-- While the segmenter never reaches the speech debounce threshold it
stays in Silence with an empty buffer, performs exactly the
`speech_frames_` / `silence_frames_` counter folds, and never emits. -/
theorem vsRun_silent (cfg : VSConfig) (frames : List (List ℤ × ℚ)) :
    ∀ (k sil : ℤ),
      (∀ i ≤ frames.length,
        speechRun cfg.speech_threshold k ((frames.take i).map Prod.snd) <
          cfg.min_speech_frames) →
      vsRun cfg ⟨[], k, sil, false⟩ frames =
        (⟨[], speechRun cfg.speech_threshold k (frames.map Prod.snd),
           silenceRun cfg.speech_threshold sil (frames.map Prod.snd), false⟩, []) := by
  induction frames with
  | nil => intro k sil _; simp [vsRun, speechRun, silenceRun]
  | cons f rest ih =>
    intro k sil h
    by_cases hs : cfg.speech_threshold ≤ f.2
    · have hlt : k + 1 < cfg.min_speech_frames := by
        have h1 := h 1 (by simp)
        rwa [List.take_succ_cons, List.take_zero, List.map_cons, List.map_nil,
          speechRun_cons_speech k [] hs, speechRun_nil] at h1
      have hstep := @vsStep_speech_noflip cfg ⟨[], k, sil, false⟩ _ f.1 hs rfl hlt
      have hrec := ih (k + 1) 0 (fun i hi => by
        have h2 := h (i + 1) (by simpa using hi)
        rwa [List.take_succ_cons, List.map_cons, speechRun_cons_speech _ _ hs] at h2)
      simp only [vsRun, hstep, hrec, List.map_cons,
        speechRun_cons_speech _ _ hs, silenceRun_cons_speech _ _ hs]
      simp
    · have hstep := @vsStep_silence_notin cfg ⟨[], k, sil, false⟩ _ f.1 hs rfl
      have hrec := ih 0 (sil + 1) (fun i hi => by
        have h2 := h (i + 1) (by simpa using hi)
        rwa [List.take_succ_cons, List.map_cons, speechRun_cons_silence _ _ hs] at h2)
      simp only [vsRun, hstep, hrec, List.map_cons,
        speechRun_cons_silence _ _ hs, silenceRun_cons_silence _ _ hs]
      simp

/-- One `ProcessFrame` call on a speech-classified frame while already in
speech and staying under both termination conditions: the samples are
appended, no callback fires. -/
theorem vsStep_speech_accum {cfg : VSConfig} {st : VSState} {p : ℚ}
    (s : List ℤ) (h1 : cfg.speech_threshold ≤ p) (h2 : st.in_speech = true)
    (h3 : st.buffer.length + s.length < cfg.max_segment_samples)
    (h4 : 1 ≤ cfg.min_silence_frames) :
    vsStep cfg st s p =
      (⟨st.buffer ++ s, st.speech_frames + 1, 0, st.in_speech⟩, none) := by
  have h3' : ¬ cfg.max_segment_samples ≤ (st.buffer ++ s).length := by
    simp only [List.length_append]; omega
  have h4' : ¬ cfg.min_silence_frames ≤ (0 : ℤ) := by omega
  simp [vsStep, h1, h2, h3', h4']
  omega

/-- One `ProcessFrame` call on a speech-classified frame while in speech
that reaches the `max_segment_samples` cap: the callback fires with the
whole accumulated buffer and the state returns to the initial Silence
state. -/
theorem vsStep_speech_cap_emit {cfg : VSConfig} {st : VSState} {p : ℚ}
    (s : List ℤ) (h1 : cfg.speech_threshold ≤ p) (h2 : st.in_speech = true)
    (h3 : cfg.max_segment_samples ≤ st.buffer.length + s.length)
    (h5 : st.buffer ++ s ≠ []) :
    vsStep cfg st s p = (vsInit, some (st.buffer ++ s)) := by
  have h3' : cfg.max_segment_samples ≤ (st.buffer ++ s).length := by
    simp only [List.length_append]; omega
  have h5' : ¬ (st.buffer ++ s).isEmpty = true := by
    simpa [List.isEmpty_iff] using h5
  simp [vsStep, vsInit, h1, h2, h3', h5']
  omega

/-- Whenever `ProcessFrame` invokes the callback it leaves the segmenter
in the initial Silence state (buffer cleared, both counters zero,
`in_speech == false`). -/
theorem vsStep_emit_reset (cfg : VSConfig) (st : VSState) (s : List ℤ) (p : ℚ)
    (seg : List ℤ) (h : (vsStep cfg st s p).2 = some seg) :
    (vsStep cfg st s p).1 = vsInit := by
  simp only [vsStep] at h ⊢
  split_ifs at h ⊢ <;> simp_all [vsInit]

/-- Emission payloads are exactly the accumulated buffer plus the current
frame's samples. -/
theorem vsStep_emit_payload (cfg : VSConfig) (st : VSState) (s : List ℤ) (p : ℚ)
    (seg : List ℤ) (h : (vsStep cfg st s p).2 = some seg) :
    seg = st.buffer ++ s := by
  simp only [vsStep] at h
  split_ifs at h <;> simp_all

/-- The reachable-state invariant is preserved by `ProcessFrame`, the
post-call buffer never exceeds the cap, and any emitted payload is at
most the cap plus the frame length. -/
theorem vsInv_step (cfg : VSConfig) (st : VSState) (s : List ℤ) (p : ℚ)
    (hinv : vsInv cfg st) :
    vsInv cfg (vsStep cfg st s p).1 ∧
    vsGetBufferSize (vsStep cfg st s p).1 ≤ cfg.max_segment_samples ∧
    (∀ seg, (vsStep cfg st s p).2 = some seg →
      seg.length ≤ cfg.max_segment_samples + s.length) := by
  obtain ⟨hout, hin⟩ := hinv
  have hbuf : st.buffer.length ≤ cfg.max_segment_samples ∨ st.buffer = [] := by
    cases hio : st.in_speech with
    | false => exact Or.inr (hout hio)
    | true => exact Or.inl (le_of_lt (hin hio))
  have hpay : ∀ seg, (vsStep cfg st s p).2 = some seg →
      seg.length ≤ cfg.max_segment_samples + s.length := by
    intro seg hseg
    have h := vsStep_emit_payload cfg st s p seg hseg
    rcases hbuf with h2 | h2 <;>
      simp only [h, h2, List.length_append, List.nil_append, List.length_nil] <;> omega
  refine ⟨?_, ?_, hpay⟩
  · unfold vsInv
    simp only [vsStep]
    split_ifs <;> simp_all
    intro h1 h2
    exfalso
    rcases ‹st.in_speech = true ∨ cfg.min_speech_frames ≤ st.speech_frames + 1› with hx | hx
    · exact absurd hx (by simp [h1])
    · omega
  · unfold vsGetBufferSize
    simp only [vsStep]
    split_ifs <;> simp_all <;> omega

/-- Running a concatenation of frame lists composes states and
concatenates emissions. -/
theorem vsRun_append (cfg : VSConfig) (a b : List (List ℤ × ℚ)) :
    ∀ st : VSState,
      vsRun cfg st (a ++ b) =
        ((vsRun cfg (vsRun cfg st a).1 b).1,
          (vsRun cfg st a).2 ++ (vsRun cfg (vsRun cfg st a).1 b).2) := by
  induction a with
  | nil => intro st; simp [vsRun]
  | cons f rest ih =>
    intro st
    simp only [List.cons_append, vsRun, List.append_eq]
    rw [ih]
    simp [List.append_assoc]

theorem silenceRun_all_speech {thr : ℚ} (l : List ℚ)
    (h : ∀ x ∈ l, thr ≤ x) : silenceRun thr 0 l = 0 := by
  induction l with
  | nil => rfl
  | cons p rest ih =>
    rw [silenceRun_cons_speech 0 rest (h p (by simp))]
    exact ih (fun x hx => h x (by simp [hx]))

/-- The `ProcessFrame` call whose speech frame reaches the debounce
threshold: `in_speech_` flips to true and the frame's samples are the
first ones accumulated (sub-cap case). -/
theorem vsStep_flip_accum {cfg : VSConfig} {st : VSState} {p : ℚ}
    (s : List ℤ) (h1 : cfg.speech_threshold ≤ p) (h2 : st.in_speech = false)
    (h3 : cfg.min_speech_frames ≤ st.speech_frames + 1)
    (hcap : st.buffer.length + s.length < cfg.max_segment_samples)
    (hsil : 1 ≤ cfg.min_silence_frames) :
    vsStep cfg st s p =
      (⟨st.buffer ++ s, st.speech_frames + 1, 0, true⟩, none) := by
  have hcap' : ¬ cfg.max_segment_samples ≤ (st.buffer ++ s).length := by
    simp only [List.length_append]; omega
  have hsil' : ¬ cfg.min_silence_frames ≤ (0 : ℤ) := by omega
  simp [vsStep, h1, h2, h3, hcap', hsil']
  omega

/-- The flip frame when the cap is already reached by its own samples:
emission fires immediately. -/
theorem vsStep_flip_emit {cfg : VSConfig} {st : VSState} {p : ℚ}
    (s : List ℤ) (h1 : cfg.speech_threshold ≤ p) (h2 : st.in_speech = false)
    (h3 : cfg.min_speech_frames ≤ st.speech_frames + 1)
    (hcap : cfg.max_segment_samples ≤ st.buffer.length + s.length)
    (hne : st.buffer ++ s ≠ []) :
    vsStep cfg st s p = (vsInit, some (st.buffer ++ s)) := by
  have hcap' : cfg.max_segment_samples ≤ (st.buffer ++ s).length := by
    simp only [List.length_append]; omega
  have hne' : ¬ (st.buffer ++ s).isEmpty = true := by
    simpa [List.isEmpty_iff] using hne
  simp [vsStep, vsInit, h1, h2, h3, hcap', hne']
  omega

/-- While in speech and strictly below the cap, `t` identical speech
frames of `s` samples each are accumulated verbatim with no emission. -/
theorem vsRun_accum_replicate (cfg : VSConfig) (s : ℕ) (val : ℤ) (p : ℚ)
    (hp : cfg.speech_threshold ≤ p) (hsil : 1 ≤ cfg.min_silence_frames) :
    ∀ (t : ℕ) (buf : List ℤ) (k : ℤ),
      buf.length + t * s < cfg.max_segment_samples →
      vsRun cfg ⟨buf, k, 0, true⟩ (List.replicate t (List.replicate s val, p)) =
        (⟨buf ++ List.replicate (t * s) val, k + t, 0, true⟩, []) := by
  intro t
  induction t with
  | zero => intro buf k h; simp [vsRun]
  | succ t ih =>
    intro buf k h
    have hts : (t + 1) * s = t * s + s := by rw [Nat.succ_mul]
    have hcap1 : (⟨buf, k, 0, true⟩ : VSState).buffer.length +
        (List.replicate s val).length < cfg.max_segment_samples := by
      simp only [List.length_replicate]
      omega
    have hstep := @vsStep_speech_accum cfg ⟨buf, k, 0, true⟩ _
      (List.replicate s val) hp rfl hcap1 hsil
    have hrec := ih (buf ++ List.replicate s val) (k + 1) (by
      simp only [List.length_append, List.length_replicate]
      omega)
    rw [List.replicate_succ]
    simp only [vsRun, hstep, hrec]
    have harith : s + t * s = (t + 1) * s := by rw [hts]; omega
    have hk : k + 1 + (t : ℤ) = k + ((t + 1 : ℕ) : ℤ) := by push_cast; ring
    rw [List.append_assoc, ← List.replicate_add, harith, hk]
    simp

/-- Running `m` speech-classified frames from a fresh segmenter while
`m` is below the debounce threshold: nothing is buffered or emitted and
the speech counter ends at `m`. -/
theorem vsRun_silent_replicate (cfg : VSConfig) (s : ℕ) (val : ℤ) (p : ℚ)
    (hp : cfg.speech_threshold ≤ p) (m : ℕ) (hm : (m : ℤ) < cfg.min_speech_frames) :
    vsRun cfg vsInit (List.replicate m (List.replicate s val, p)) =
      (⟨[], (m : ℤ), 0, false⟩, []) := by
  have h := vsRun_silent cfg (List.replicate m (List.replicate s val, p)) 0 0 ?_
  · rw [vsInit] at *
    rw [h]
    rw [List.map_replicate]
    rw [speechRun_all_speech _ 0
      (fun x hx => by rw [List.eq_of_mem_replicate hx]; exact hp)]
    rw [silenceRun_all_speech _
      (fun x hx => by rw [List.eq_of_mem_replicate hx]; exact hp)]
    simp
  · intro i hi
    rw [List.take_replicate, List.map_replicate]
    rw [speechRun_all_speech _ 0
      (fun x hx => by rw [List.eq_of_mem_replicate hx]; exact hp)]
    simp only [List.length_replicate, zero_add]
    omega

/-- Running `min_speech_frames + t` uniform speech frames from a fresh
segmenter while still strictly below the cap: the segmenter is
accumulating, holding exactly the samples of the `t + 1` frames processed
since `in_speech_` flipped (the debounce frames' samples are absent). -/
theorem vsRun_speech_phase (cfg : VSConfig) (s : ℕ) (val : ℤ) (p : ℚ)
    (hN : 1 ≤ cfg.min_speech_frames) (hsil : 1 ≤ cfg.min_silence_frames)
    (hp : cfg.speech_threshold ≤ p) (t : ℕ)
    (hcap : (t + 1) * s < cfg.max_segment_samples) :
    vsRun cfg vsInit
        (List.replicate (cfg.min_speech_frames.toNat + t) (List.replicate s val, p)) =
      (⟨List.replicate ((t + 1) * s) val, cfg.min_speech_frames + t, 0, true⟩, []) := by
  have hts : (t + 1) * s = t * s + s := Nat.succ_mul t s
  have hsle : s ≤ (t + 1) * s := Nat.le_mul_of_pos_left s (Nat.succ_pos t)
  have hN' : 1 ≤ cfg.min_speech_frames.toNat := by omega
  rw [show cfg.min_speech_frames.toNat + t = (cfg.min_speech_frames.toNat - 1) + (t + 1) by omega]
  rw [List.replicate_add, vsRun_append]
  rw [vsRun_silent_replicate cfg s val p hp (cfg.min_speech_frames.toNat - 1) (by omega)]
  dsimp only
  rw [List.replicate_succ]
  have hflip := @vsStep_flip_accum cfg
    ⟨[], ((cfg.min_speech_frames.toNat - 1 : ℕ) : ℤ), 0, false⟩ _
    (List.replicate s val) hp rfl (by dsimp only; omega)
    (by simp only [List.length_nil, List.length_replicate]; omega) hsil
  simp only [vsRun, hflip, List.nil_append]
  rw [vsRun_accum_replicate cfg s val p hp hsil t (List.replicate s val) _
    (by simp only [List.length_replicate]; omega)]
  have hbuf : List.replicate s val ++ List.replicate (t * s) val =
      List.replicate ((t + 1) * s) val := by
    rw [← List.replicate_add]
    congr 1
    omega
  have hk : ((cfg.min_speech_frames.toNat - 1 : ℕ) : ℤ) + 1 + (t : ℤ) =
      cfg.min_speech_frames + (t : ℤ) := by omega
  rw [hbuf, hk]
  simp

/-- Feeding uniform speech frames from a fresh segmenter until the
accumulated count first reaches the cap: exactly one emission happens, on
that very frame, with payload `ceil(max/s) * s` samples (which exceeds
the cap by up to `s - 1`), every strictly shorter run emits nothing, and
the state returns to the initial Silence state. -/
theorem vsRun_cap_scenario (cfg : VSConfig) (s : ℕ) (val : ℤ) (p : ℚ)
    (hN : 1 ≤ cfg.min_speech_frames) (hsil : 1 ≤ cfg.min_silence_frames)
    (hM : 1 ≤ cfg.max_segment_samples) (hs : 1 ≤ s) (hp : cfg.speech_threshold ≤ p) :
    vsRun cfg vsInit
        (List.replicate
          (cfg.min_speech_frames.toNat - 1 + ((cfg.max_segment_samples - 1) / s + 1))
          (List.replicate s val, p)) =
      (vsInit, [List.replicate (((cfg.max_segment_samples - 1) / s + 1) * s) val]) ∧
    cfg.max_segment_samples ≤ ((cfg.max_segment_samples - 1) / s + 1) * s ∧
    ((cfg.max_segment_samples - 1) / s + 1) * s < cfg.max_segment_samples + s ∧
    ∀ i < cfg.min_speech_frames.toNat - 1 + ((cfg.max_segment_samples - 1) / s + 1),
      (vsRun cfg vsInit (List.replicate i (List.replicate s val, p))).2 = [] := by
  have hN' : 1 ≤ cfg.min_speech_frames.toNat := by omega
  have hqs : (cfg.max_segment_samples - 1) / s * s ≤ cfg.max_segment_samples - 1 :=
    Nat.div_mul_le_self _ s
  have hlt : cfg.max_segment_samples - 1 < ((cfg.max_segment_samples - 1) / s + 1) * s :=
    (Nat.div_lt_iff_lt_mul (by omega)).mp (Nat.lt_succ_self _)
  have hcs : ((cfg.max_segment_samples - 1) / s + 1) * s =
      (cfg.max_segment_samples - 1) / s * s + s := Nat.succ_mul _ s
  refine ⟨?_, by omega, by omega, ?_⟩
  · rcases Nat.eq_zero_or_pos ((cfg.max_segment_samples - 1) / s) with hq | hq
    · -- the flip frame itself reaches the cap
      rw [hq]
      rw [show cfg.min_speech_frames.toNat - 1 + (0 + 1) = cfg.min_speech_frames.toNat by omega]
      rw [show cfg.min_speech_frames.toNat = (cfg.min_speech_frames.toNat - 1) + 1 by omega]
      rw [List.replicate_add, vsRun_append, List.replicate_one]
      rw [vsRun_silent_replicate cfg s val p hp (cfg.min_speech_frames.toNat - 1) (by omega)]
      dsimp only
      have hflip := @vsStep_flip_emit cfg
        ⟨[], ((cfg.min_speech_frames.toNat - 1 : ℕ) : ℤ), 0, false⟩ _
        (List.replicate s val) hp rfl (by dsimp only; omega)
        (by simp only [List.length_nil, List.length_replicate]; rw [hq] at hlt; omega)
        (by simp only [List.nil_append, ne_eq, List.replicate_eq_nil_iff]; omega)
      simp only [vsRun, hflip, List.nil_append]
      simp [show (0 + 1) * s = s by omega]
    · -- accumulate q * s samples, then the next frame crosses the cap
      rw [show cfg.min_speech_frames.toNat - 1 + ((cfg.max_segment_samples - 1) / s + 1) =
        (cfg.min_speech_frames.toNat + ((cfg.max_segment_samples - 1) / s - 1)) + 1 by omega]
      rw [List.replicate_add, vsRun_append, List.replicate_one]
      rw [vsRun_speech_phase cfg s val p hN hsil hp ((cfg.max_segment_samples - 1) / s - 1)
        (by rw [show (cfg.max_segment_samples - 1) / s - 1 + 1 =
              (cfg.max_segment_samples - 1) / s by omega]; omega)]
      dsimp only
      have hcap2 : cfg.max_segment_samples ≤
          (List.replicate (((cfg.max_segment_samples - 1) / s - 1 + 1) * s) val).length +
            (List.replicate s val).length := by
        simp only [List.length_replicate]
        rw [show (cfg.max_segment_samples - 1) / s - 1 + 1 =
          (cfg.max_segment_samples - 1) / s by omega]
        omega
      have hemit := @vsStep_speech_cap_emit cfg
        ⟨List.replicate (((cfg.max_segment_samples - 1) / s - 1 + 1) * s) val,
          cfg.min_speech_frames + ((cfg.max_segment_samples - 1) / s - 1 : ℕ), 0, true⟩ _
        (List.replicate s val) hp rfl hcap2
        (by simp only [ne_eq, List.append_eq_nil, List.replicate_eq_nil_iff, not_and]; omega)
      simp only [vsRun, hemit]
      have hpl : List.replicate (((cfg.max_segment_samples - 1) / s - 1 + 1) * s) val ++
          List.replicate s val =
          List.replicate (((cfg.max_segment_samples - 1) / s + 1) * s) val := by
        rw [← List.replicate_add]
        congr 1
        rw [show (cfg.max_segment_samples - 1) / s - 1 + 1 =
          (cfg.max_segment_samples - 1) / s by omega]
        omega
      rw [hpl]
      simp
  · intro i hi
    by_cases hiN : i < cfg.min_speech_frames.toNat
    · rw [vsRun_silent_replicate cfg s val p hp i (by omega)]
    · rw [show i = cfg.min_speech_frames.toNat + (i - cfg.min_speech_frames.toNat) by omega]
      have ht1 : (i - cfg.min_speech_frames.toNat + 1) ≤ (cfg.max_segment_samples - 1) / s := by
        omega
      rw [vsRun_speech_phase cfg s val p hN hsil hp (i - cfg.min_speech_frames.toNat)
        (by
          have := Nat.mul_le_mul_right s ht1
          omega)]

/-- One `ProcessFrame` call on a silence-classified frame while in
speech, silence debounce not yet met, cap not reached: the frame's
samples are still appended (short pauses stay inside the utterance). -/
theorem vsStep_silence_in_accum {cfg : VSConfig} {st : VSState} {p : ℚ}
    (s : List ℤ) (h1 : ¬ cfg.speech_threshold ≤ p) (h2 : st.in_speech = true)
    (h3 : st.silence_frames + 1 < cfg.min_silence_frames)
    (hcap : st.buffer.length + s.length < cfg.max_segment_samples) :
    vsStep cfg st s p = (⟨st.buffer ++ s, 0, st.silence_frames + 1, true⟩, none) := by
  have h3' : ¬ cfg.min_silence_frames ≤ st.silence_frames + 1 := not_le.mpr h3
  have hcap' : ¬ cfg.max_segment_samples ≤ (st.buffer ++ s).length := by
    simp only [List.length_append]; omega
  simp [vsStep, h1, h2, h3', hcap']
  omega

/-- One `ProcessFrame` call on a silence-classified frame while in speech
that completes the silence debounce: the callback fires with the
accumulated buffer plus this frame's samples, and the state resets. -/
theorem vsStep_silence_in_emit {cfg : VSConfig} {st : VSState} {p : ℚ}
    (s : List ℤ) (h1 : ¬ cfg.speech_threshold ≤ p) (h2 : st.in_speech = true)
    (h3 : cfg.min_silence_frames ≤ st.silence_frames + 1)
    (hne : st.buffer ++ s ≠ []) :
    vsStep cfg st s p = (vsInit, some (st.buffer ++ s)) := by
  have hne' : ¬ (st.buffer ++ s).isEmpty = true := by
    simpa [List.isEmpty_iff] using hne
  simp [vsStep, vsInit, h1, h2, h3, hne']

theorem c4_speech_run :
    vsRun c4Config vsInit c4Speech =
      (⟨List.replicate 3840 0, 10, 0, true⟩, []) := by
  have h := vsRun_speech_phase c4Config 480 0 (mkRat 9 10) (by decide) (by decide)
    (by decide) 7 (by norm_num [c4Config])
  have hN3 : c4Config.min_speech_frames.toNat = 3 := by decide
  rw [hN3] at h
  rw [show c4Speech = List.replicate (3 + 7) (List.replicate 480 0, mkRat 9 10) from rfl]
  rw [h]
  norm_num [c4Config]

theorem c4_full_run :
    vsRun c4Config vsInit (c4Speech ++ c4Silence) =
      (⟨[], 0, 2, false⟩, [List.replicate 5280 0]) := by
  rw [vsRun_append, c4_speech_run]
  dsimp only
  have hns : ¬ c4Config.speech_threshold ≤ mkRat 1 10 := by decide
  have e1 : vsStep c4Config ⟨List.replicate 3840 0, 10, 0, true⟩
      (List.replicate 480 0) (mkRat 1 10) =
      (⟨List.replicate 4320 0, 0, 1, true⟩, none) := by
    rw [vsStep_silence_in_accum (List.replicate 480 0) hns rfl (by decide)
      (by simp only [List.length_replicate]; decide)]
    norm_num
  have e2 : vsStep c4Config ⟨List.replicate 4320 0, 0, 1, true⟩
      (List.replicate 480 0) (mkRat 1 10) =
      (⟨List.replicate 4800 0, 0, 2, true⟩, none) := by
    rw [vsStep_silence_in_accum (List.replicate 480 0) hns rfl (by decide)
      (by simp only [List.length_replicate]; decide)]
    norm_num
  have e3 : vsStep c4Config ⟨List.replicate 4800 0, 0, 2, true⟩
      (List.replicate 480 0) (mkRat 1 10) =
      (vsInit, some (List.replicate 5280 0)) := by
    rw [vsStep_silence_in_emit (List.replicate 480 0) hns rfl (by decide)
      (by
        intro hcontra
        have hlen := congrArg List.length hcontra
        simp only [List.length_append, List.length_replicate, List.length_nil] at hlen
        omega)]
    dsimp only
    rw [← List.replicate_add, show 4800 + 480 = 5280 from by norm_num]
  have e4 : vsStep c4Config vsInit (List.replicate 480 0) (mkRat 1 10) =
      (⟨[], 0, 1, false⟩, none) := by
    rw [vsStep_silence_notin (List.replicate 480 0) hns rfl]
    rfl
  have e5 : vsStep c4Config ⟨[], 0, 1, false⟩ (List.replicate 480 0) (mkRat 1 10) =
      (⟨[], 0, 2, false⟩, none) := by
    rw [vsStep_silence_notin (List.replicate 480 0) hns rfl]
    rfl
  rw [show c4Silence = (List.replicate 480 0, mkRat 1 10) :: (List.replicate 480 0, mkRat 1 10) ::
    (List.replicate 480 0, mkRat 1 10) :: (List.replicate 480 0, mkRat 1 10) ::
    (List.replicate 480 0, mkRat 1 10) :: [] from rfl]
  simp only [vsRun, e1, e2, e3, e4, e5]
  rfl

/-- Claim C4 (amended): in the basic segmentation scenario
(threshold 0.5, min_speech_frames 3, min_silence_frames 3; 10 frames of
480 samples at probability 0.9, then 5 frames at probability 0.1), after
the speech frames `IsInSpeech()` is true and no callback has fired, and
after the silence frames exactly one callback has fired and
`IsInSpeech()` is false — but the payload is `480 * 11 = 5280` samples
(the 8 speech frames from the one that flipped `in_speech_`, plus the 3
trailing silence frames that completed the silence debounce), not
`480 * 10`. -/
theorem vadSegmenter_basic_scenario :
    vsIsInSpeech (vsRun c4Config vsInit c4Speech).1 = true ∧
    (vsRun c4Config vsInit c4Speech).2 = [] ∧
    ((vsRun c4Config vsInit (c4Speech ++ c4Silence)).2).map List.length = [480 * 11] ∧
    vsIsInSpeech (vsRun c4Config vsInit (c4Speech ++ c4Silence)).1 = false := by
  rw [c4_speech_run, c4_full_run]
  refine ⟨rfl, rfl, ?_, rfl⟩
  simp only [List.map_cons, List.map_nil, List.length_replicate]

/-- Claim C4, counterexample to the claim as stated: the single callback
of the scenario carries 5280 samples, not `480 * 10 = 4800`. -/
theorem vadSegmenter_basic_scenario_cex :
    ((vsRun c4Config vsInit (c4Speech ++ c4Silence)).2).map List.length = [5280] ∧
    (5280 : ℕ) ≠ 480 * 10 := by
  rw [c4_full_run]
  refine ⟨?_, by norm_num⟩
  simp only [List.map_cons, List.map_nil, List.length_replicate]

/-- Claim C5 (amended): a `ProcessFrame` call with `count == 0` never
appends samples: either no callback fires and the buffer is unchanged, or
the callback fires with exactly the previously accumulated buffer (which
is then cleared).  It is not a full no-op — the classification counters
still advance, which can flip `in_speech_` and can trigger an emission. -/
theorem vadSegmenter_zero_count (cfg : VSConfig) (st : VSState) (p : ℚ) :
    ((vsStep cfg st [] p).2 = none ∧ (vsStep cfg st [] p).1.buffer = st.buffer) ∨
    ((vsStep cfg st [] p).2 = some st.buffer ∧ (vsStep cfg st [] p).1.buffer = []) := by
  simp only [vsStep]
  split_ifs <;> simp_all [List.isEmpty_iff]

/-- Claim C5, counterexample to the claim as stated: with configuration
`{threshold 0.5, min_speech 1, min_silence 1}`, after one genuine speech
frame `[5, 5]`, a call with `count == 0` at probability 0.1 invokes the
callback (payload `[5, 5]`) and changes the observable state. -/
theorem vadSegmenter_zero_count_cex :
    (vsStep ⟨mkRat 1 2, 1, 1, 1000000⟩
        (vsStep ⟨mkRat 1 2, 1, 1, 1000000⟩ vsInit [5, 5] (mkRat 9 10)).1 []
        (mkRat 1 10)).2 = some [5, 5] ∧
    (vsStep ⟨mkRat 1 2, 1, 1, 1000000⟩
        (vsStep ⟨mkRat 1 2, 1, 1, 1000000⟩ vsInit [5, 5] (mkRat 9 10)).1 []
        (mkRat 1 10)).1 ≠
      (vsStep ⟨mkRat 1 2, 1, 1, 1000000⟩ vsInit [5, 5] (mkRat 9 10)).1 := by
  decide

/-- Claim C6: with `min_speech_frames = N`, any frame sequence in which
no prefix ends with `N` consecutive speech-classified frames (so the
stream contains fewer than `N` consecutive speech frames at every point)
never invokes the segment callback, and `in_speech` is false after every
prefix. -/
theorem vadSegmenter_debounce (cfg : VSConfig) (frames : List (List ℤ × ℚ))
    (h : ∀ i ≤ frames.length,
      speechRun cfg.speech_threshold 0 ((frames.take i).map Prod.snd) <
        cfg.min_speech_frames) :
    (vsRun cfg vsInit frames).2 = [] ∧
    ∀ i ≤ frames.length, vsIsInSpeech (vsRun cfg vsInit (frames.take i)).1 = false := by
  constructor
  · rw [show vsInit = (⟨[], 0, 0, false⟩ : VSState) from rfl, vsRun_silent cfg frames 0 0 h]
  · intro i hi
    have h' : ∀ j ≤ (frames.take i).length,
        speechRun cfg.speech_threshold 0 (((frames.take i).take j).map Prod.snd) <
          cfg.min_speech_frames := by
      intro j hj
      rw [List.take_take]
      exact h (min j i) (by simp only [List.length_take] at hj; omega)
    rw [show vsInit = (⟨[], 0, 0, false⟩ : VSState) from rfl,
      vsRun_silent cfg (frames.take i) 0 0 h']
    rfl

/-- Claim C6 witness: a concrete run (threshold 0.5, N = 2) with a single
speech frame followed by silence satisfies the hypothesis, emits nothing
and never enters speech. -/
theorem vadSegmenter_debounce_witness :
    (∀ i ≤ (([([1], mkRat 9 10), ([2], mkRat 1 10)] : List (List ℤ × ℚ))).length,
      speechRun (mkRat 1 2) 0
        ((([([1], mkRat 9 10), ([2], mkRat 1 10)] : List (List ℤ × ℚ)).take i).map
          Prod.snd) < 2) ∧
    ((vsRun ⟨mkRat 1 2, 2, 2, 100⟩ vsInit [([1], mkRat 9 10), ([2], mkRat 1 10)]).2 = [] ∧
      ∀ i ≤ ([([1], mkRat 9 10), ([2], mkRat 1 10)] : List (List ℤ × ℚ)).length,
        vsIsInSpeech (vsRun ⟨mkRat 1 2, 2, 2, 100⟩ vsInit
          (([([1], mkRat 9 10), ([2], mkRat 1 10)] : List (List ℤ × ℚ)).take i)).1 = false) :=
  ⟨by decide, vadSegmenter_debounce ⟨mkRat 1 2, 2, 2, 100⟩
    [([1], mkRat 9 10), ([2], mkRat 1 10)] (by decide)⟩

/-- Claim C8: whenever an emission fires (in particular one forced by the
`max_segment_samples` cap during continuous speech) the segmenter returns
to the initial Silence state with all counters reset; consequently the
samples of the following `min_speech_frames - 1` speech frames (the
re-debounce window) are appended to no buffer and appear in no emitted
segment — that audio is dropped. -/
theorem vadSegmenter_cap_reset_drop (cfg : VSConfig) (st : VSState)
    (samples : List ℤ) (pr : ℚ) (seg : List ℤ)
    (hemit : (vsStep cfg st samples pr).2 = some seg)
    (frames : List (List ℤ × ℚ))
    (hall : ∀ f ∈ frames, cfg.speech_threshold ≤ f.2)
    (hlen : (frames.length : ℤ) < cfg.min_speech_frames) :
    (vsStep cfg st samples pr).1 = vsInit ∧
    (vsRun cfg (vsStep cfg st samples pr).1 frames).2 = [] ∧
    vsGetBufferSize (vsRun cfg (vsStep cfg st samples pr).1 frames).1 = 0 := by
  have hreset := vsStep_emit_reset cfg st samples pr seg hemit
  have h : ∀ i ≤ frames.length,
      speechRun cfg.speech_threshold 0 ((frames.take i).map Prod.snd) <
        cfg.min_speech_frames := by
    intro i hi
    rw [speechRun_all_speech _ 0 (fun x hx => by
      obtain ⟨f, hf, rfl⟩ := List.mem_map.mp hx
      exact hall f (List.mem_of_mem_take hf))]
    simp only [List.length_map, List.length_take, zero_add]
    omega
  have main := vsRun_silent cfg frames 0 0 h
  rw [hreset, show vsInit = (⟨[], 0, 0, false⟩ : VSState) from rfl, main]
  exact ⟨rfl, rfl, rfl⟩

/-- Claim C8 witness: a cap-triggered emission from a concrete
accumulating state, followed by one speech frame (fewer than
`min_speech_frames = 2`), which is dropped. -/
theorem vadSegmenter_cap_reset_drop_witness :
    (vsStep ⟨mkRat 1 2, 2, 1, 2⟩ ⟨[3], 5, 0, true⟩ [4] (mkRat 9 10)).2 = some [3, 4] ∧
    ((vsStep ⟨mkRat 1 2, 2, 1, 2⟩ ⟨[3], 5, 0, true⟩ [4] (mkRat 9 10)).1 = vsInit ∧
      (vsRun ⟨mkRat 1 2, 2, 1, 2⟩
        (vsStep ⟨mkRat 1 2, 2, 1, 2⟩ ⟨[3], 5, 0, true⟩ [4] (mkRat 9 10)).1
        [([9], mkRat 1 1)]).2 = [] ∧
      vsGetBufferSize (vsRun ⟨mkRat 1 2, 2, 1, 2⟩
        (vsStep ⟨mkRat 1 2, 2, 1, 2⟩ ⟨[3], 5, 0, true⟩ [4] (mkRat 9 10)).1
        [([9], mkRat 1 1)]).1 = 0) :=
  ⟨by decide, vadSegmenter_cap_reset_drop ⟨mkRat 1 2, 2, 1, 2⟩ ⟨[3], 5, 0, true⟩ [4]
    (mkRat 9 10) [3, 4] (by decide) [([9], mkRat 1 1)] (by decide) (by decide)⟩

/-- Claim C2 (amended): after every `ProcessFrame` call on a state
satisfying the reachable-state invariant the accumulated buffer length is
at most `max_segment_samples`; feeding continuous speech-classified
frames whose cumulative count would exceed the cap triggers exactly one
emission, at the first frame at which the accumulated count reaches or
exceeds the cap — but the callback payload is `ceil(max/s) * s` samples
for frame size `s`, which is at least the cap and may exceed it by up to
`s - 1`; the bound `payload <= max_segment_samples` does not hold. -/
theorem vadSegmenter_cap (cfg : VSConfig) (st : VSState) (samples : List ℤ) (pr : ℚ)
    (s : ℕ) (val : ℤ) (p : ℚ)
    (hinv : vsInv cfg st)
    (hN : 1 ≤ cfg.min_speech_frames) (hsil : 1 ≤ cfg.min_silence_frames)
    (hM : 1 ≤ cfg.max_segment_samples) (hs : 1 ≤ s) (hp : cfg.speech_threshold ≤ p) :
    (vsInv cfg (vsStep cfg st samples pr).1 ∧
      vsGetBufferSize (vsStep cfg st samples pr).1 ≤ cfg.max_segment_samples ∧
      ∀ seg, (vsStep cfg st samples pr).2 = some seg →
        seg.length ≤ cfg.max_segment_samples + samples.length) ∧
    (vsRun cfg vsInit
        (List.replicate (cfg.min_speech_frames.toNat - 1 +
          ((cfg.max_segment_samples - 1) / s + 1)) (List.replicate s val, p)) =
      (vsInit, [List.replicate (((cfg.max_segment_samples - 1) / s + 1) * s) val]) ∧
      cfg.max_segment_samples ≤ ((cfg.max_segment_samples - 1) / s + 1) * s ∧
      ((cfg.max_segment_samples - 1) / s + 1) * s < cfg.max_segment_samples + s ∧
      ∀ i < cfg.min_speech_frames.toNat - 1 + ((cfg.max_segment_samples - 1) / s + 1),
        (vsRun cfg vsInit (List.replicate i (List.replicate s val, p))).2 = []) :=
  ⟨vsInv_step cfg st samples pr hinv, vsRun_cap_scenario cfg s val p hN hsil hM hs hp⟩

/-- Claim C2 witness: configuration `{threshold 0.5, min_speech 1,
min_silence 1, cap 1}`, one speech frame of one sample. -/
theorem vadSegmenter_cap_witness :
    (vsInv ⟨mkRat 1 2, 1, 1, 1⟩ vsInit ∧ (1 : ℤ) ≤ 1 ∧ (1 : ℤ) ≤ 1 ∧ (1 : ℕ) ≤ 1 ∧
      (1 : ℕ) ≤ 1 ∧ mkRat 1 2 ≤ mkRat 1 1) ∧
    ((vsInv ⟨mkRat 1 2, 1, 1, 1⟩ (vsStep ⟨mkRat 1 2, 1, 1, 1⟩ vsInit [] (mkRat 0 1)).1 ∧
      vsGetBufferSize (vsStep ⟨mkRat 1 2, 1, 1, 1⟩ vsInit [] (mkRat 0 1)).1 ≤ 1 ∧
      ∀ seg, (vsStep ⟨mkRat 1 2, 1, 1, 1⟩ vsInit [] (mkRat 0 1)).2 = some seg →
        seg.length ≤ 1) ∧
    (vsRun ⟨mkRat 1 2, 1, 1, 1⟩ vsInit [([7], mkRat 1 1)] = (vsInit, [[7]]) ∧
      (1 : ℕ) ≤ 1 ∧ (1 : ℕ) < 2 ∧
      ∀ i < 1,
        (vsRun ⟨mkRat 1 2, 1, 1, 1⟩ vsInit (List.replicate i ([7], mkRat 1 1))).2 = [])) :=
  ⟨⟨by decide, by decide, by decide, by decide, by decide, by decide⟩,
    vadSegmenter_cap ⟨mkRat 1 2, 1, 1, 1⟩ vsInit [] (mkRat 0 1) 1 7 (mkRat 1 1)
      (by decide) (by decide) (by decide) (by decide) (by decide) (by decide)⟩

/-- Claim C2, counterexample to the claim as stated: with cap 500 and
480-sample speech frames (min_speech_frames 1), the cap-triggered
callback carries 960 samples, which exceeds `max_segment_samples`. -/
theorem vadSegmenter_cap_cex :
    ((vsRun ⟨mkRat 1 2, 1, 3, 500⟩ vsInit
        (List.replicate 2 (List.replicate 480 5, mkRat 9 10))).2).map List.length = [960] ∧
    ¬ (960 : ℕ) ≤ 500 := by
  decide

theorem writeBack_length (frame : List ℚ) :
    ∀ (flt : List ℚ) (s : ℕ), (writeBack flt s frame).length = flt.length := by
  induction frame with
  | nil => intro flt s; rfl
  | cons v rest ih =>
    intro flt s
    simp only [writeBack, ih, List.length_set]

/-- The rebuffering loop advances the write cursor by the number of
samples consumed, modulo the frame size. -/
theorem procLoop_pos (ftotal : ℕ) (ev : Bool) {σ : Type}
    (pf : σ → List ℚ → σ × List ℚ × ℚ) (hft : 0 < ftotal) :
    ∀ (fuel : ℕ) (st : RNState σ) (flt : List ℚ) (ip : ℕ),
      st.pos < ftotal → flt.length - ip ≤ fuel →
      (procLoop ftotal ev pf fuel st flt ip).1.pos =
        (st.pos + (flt.length - ip)) % ftotal := by
  intro fuel
  induction fuel with
  | zero =>
    intro st flt ip hpos hfu
    simp only [procLoop]
    rw [show flt.length - ip = 0 by omega, Nat.add_zero, Nat.mod_eq_of_lt hpos]
  | succ fuel ih =>
    intro st flt ip hpos hfu
    by_cases hip : ip < flt.length
    · simp only [procLoop, if_pos hip]
      have ht1 : 1 ≤ min (ftotal - st.pos) (flt.length - ip) := by omega
      have ht2 : min (ftotal - st.pos) (flt.length - ip) ≤ ftotal - st.pos :=
        min_le_left _ _
      have ht3 : min (ftotal - st.pos) (flt.length - ip) ≤ flt.length - ip :=
        min_le_right _ _
      by_cases hdr : ftotal ≤ st.pos + min (ftotal - st.pos) (flt.length - ip)
      · rw [if_pos hdr]
        rw [ih _ _ _ (by dsimp only; omega) (by rw [writeBack_length]; omega)]
        dsimp only
        rw [writeBack_length, Nat.zero_add]
        have harith : st.pos + (flt.length - ip) =
            ftotal + (flt.length - (ip + min (ftotal - st.pos) (flt.length - ip))) := by
          omega
        rw [harith, Nat.add_mod_left]
      · rw [if_neg hdr]
        rw [ih _ _ _ (by dsimp only; omega) (by omega)]
        dsimp only
        have harith : st.pos + min (ftotal - st.pos) (flt.length - ip) +
            (flt.length - (ip + min (ftotal - st.pos) (flt.length - ip))) =
            st.pos + (flt.length - ip) := by
          omega
        rw [harith]
    · simp only [procLoop, if_neg hip]
      rw [show flt.length - ip = 0 by omega, Nat.add_zero, Nat.mod_eq_of_lt hpos]

/-- One `Process` call advances the cursor by the input length modulo the
frame size. -/
theorem rnProcess_pos (ftotal : ℕ) (ev : Bool) {σ : Type}
    (pf : σ → List ℚ → σ × List ℚ × ℚ) (hft : 0 < ftotal)
    (st : RNState σ) (hpos : st.pos < ftotal) (samples : List ℤ) :
    (rnProcess ftotal ev pf st samples).1.pos =
      (st.pos + samples.length) % ftotal := by
  unfold rnProcess
  dsimp only
  rw [procLoop_pos ftotal ev pf hft _ st _ 0 hpos (by omega)]
  simp [List.length_map]

theorem rnProcessCalls_pos (ftotal : ℕ) (ev : Bool) {σ : Type}
    (pf : σ → List ℚ → σ × List ℚ × ℚ) (hft : 0 < ftotal) :
    ∀ (calls : List (List ℤ)) (st : RNState σ), st.pos < ftotal →
      (rnProcessCalls ftotal ev pf st calls).pos =
        (st.pos + (calls.map List.length).sum) % ftotal := by
  intro calls
  induction calls with
  | nil =>
    intro st hpos
    simp only [rnProcessCalls, List.foldl_nil, List.map_nil, List.sum_nil, Nat.add_zero]
    rw [Nat.mod_eq_of_lt hpos]
  | cons c rest ih =>
    intro st hpos
    have hstep := rnProcess_pos ftotal ev pf hft st hpos c
    have hlt : (rnProcess ftotal ev pf st c).1.pos < ftotal := by
      rw [hstep]; exact Nat.mod_lt _ hft
    simp only [rnProcessCalls, List.foldl_cons] at ih ⊢
    rw [ih _ hlt, hstep, Nat.mod_add_mod, List.map_cons, List.sum_cons]
    rw [Nat.add_assoc]

/-- Claim C7: for an initialized processor and any sequence of `Process`
calls whose cumulative input length is a multiple of
`frame_size * channels`, the rebuffer cursor is 0 after the last call —
no input samples are pending in the rebuffer (the cursor counts exactly
the pending samples). -/
theorem rnProcessor_frame_boundary (ftotal : ℕ) (ev : Bool) {σ : Type}
    (pf : σ → List ℚ → σ × List ℚ × ℚ) (ms : σ) (calls : List (List ℤ))
    (hft : 0 < ftotal) (hsum : (calls.map List.length).sum % ftotal = 0) :
    (rnProcessCalls ftotal ev pf (rnInit ftotal ms) calls).pos = 0 := by
  rw [rnProcessCalls_pos ftotal ev pf hft calls (rnInit ftotal ms) hft]
  simpa [rnInit] using hsum

/-- Claim C7 witness: frame size 3, two calls of 2 and 1 samples. -/
theorem rnProcessor_frame_boundary_witness :
    (0 < 3 ∧ (([[1, 2], [3]] : List (List ℤ)).map List.length).sum % 3 = 0) ∧
    (rnProcessCalls 3 false pfId (rnInit 3 ()) [[1, 2], [3]]).pos = 0 :=
  ⟨⟨by decide, by decide⟩,
    rnProcessor_frame_boundary 3 false pfId () [[1, 2], [3]] (by decide) (by decide)⟩

theorem getLastD_concat (l : List ℚ) (v d : ℚ) : (l ++ [v]).getLastD d = v := by
  induction l generalizing d with
  | nil => rfl
  | cons a rest ih => rw [List.cons_append, List.getLastD_cons, ih]

/-- With `enable_vad` unset, the loop never touches `last_vad_prob_`. -/
theorem procLoop_vad_disabled (ftotal : ℕ) {σ : Type}
    (pf : σ → List ℚ → σ × List ℚ × ℚ) :
    ∀ (fuel : ℕ) (st : RNState σ) (flt : List ℚ) (ip : ℕ),
      (procLoop ftotal false pf fuel st flt ip).1.lastVad = st.lastVad := by
  intro fuel
  induction fuel with
  | zero => intro st flt ip; rfl
  | succ fuel ih =>
    intro st flt ip
    simp only [procLoop]
    by_cases hip : ip < flt.length
    · rw [if_pos hip]
      by_cases hdr : ftotal ≤ st.pos + min (ftotal - st.pos) (flt.length - ip)
      · rw [if_pos hdr, ih]
        simp
      · rw [if_neg hdr, ih]
    · rw [if_neg hip]

/-- With `enable_vad` set, `last_vad_prob_` always equals the VAD value
of the most recently drained analysis frame (the last entry of the ghost
trace), with the stored initial value as default. -/
theorem procLoop_vad_enabled (ftotal : ℕ) {σ : Type}
    (pf : σ → List ℚ → σ × List ℚ × ℚ) :
    ∀ (fuel : ℕ) (st : RNState σ) (flt : List ℚ) (ip : ℕ),
      st.lastVad = st.vtrace.getLastD 0 →
      (procLoop ftotal true pf fuel st flt ip).1.lastVad =
        ((procLoop ftotal true pf fuel st flt ip).1.vtrace).getLastD 0 := by
  intro fuel
  induction fuel with
  | zero => intro st flt ip h; exact h
  | succ fuel ih =>
    intro st flt ip h
    simp only [procLoop]
    by_cases hip : ip < flt.length
    · rw [if_pos hip]
      by_cases hdr : ftotal ≤ st.pos + min (ftotal - st.pos) (flt.length - ip)
      · rw [if_pos hdr]
        apply ih
        dsimp only
        rw [if_pos trivial, getLastD_concat]
      · rw [if_neg hdr]
        exact ih _ _ _ h
    · rw [if_neg hip]
      exact h

/-- If the call cannot complete a frame, the loop leaves
`last_vad_prob_` and the drain trace untouched. -/
theorem procLoop_no_drain (ftotal : ℕ) (ev : Bool) {σ : Type}
    (pf : σ → List ℚ → σ × List ℚ × ℚ) :
    ∀ (fuel : ℕ) (st : RNState σ) (flt : List ℚ) (ip : ℕ),
      st.pos + (flt.length - ip) < ftotal →
      (procLoop ftotal ev pf fuel st flt ip).1.lastVad = st.lastVad ∧
      (procLoop ftotal ev pf fuel st flt ip).1.vtrace = st.vtrace := by
  intro fuel
  induction fuel with
  | zero => intro st flt ip _; exact ⟨rfl, rfl⟩
  | succ fuel ih =>
    intro st flt ip hsmall
    simp only [procLoop]
    by_cases hip : ip < flt.length
    · rw [if_pos hip]
      have ht2 : min (ftotal - st.pos) (flt.length - ip) ≤ flt.length - ip :=
        min_le_right _ _
      have hnd : ¬ ftotal ≤ st.pos + min (ftotal - st.pos) (flt.length - ip) := by
        omega
      rw [if_neg hnd]
      exact ih _ _ _ (by dsimp only; omega)
    · rw [if_neg hip]
      exact ⟨rfl, rfl⟩

/-- Claim C10: `GetVADProbability()` reads the stored last-frame VAD
value: it is 0 immediately after `Reset()`; it is still 0 after a
`Process` call on a fresh processor whose input is shorter than one
analysis frame (no frame completed); it never changes when VAD is
disabled in the configuration; and when VAD is enabled it equals the
value derived from the most recently completed analysis frame (the last
entry of the drain trace). -/
theorem rnGetVADProbability_spec (ftotal : ℕ) (ev : Bool) {σ : Type}
    (pf : σ → List ℚ → σ × List ℚ × ℚ) (st : RNState σ) (samples : List ℤ)
    (freshMs ms : σ)
    (hinv : ev = true → st.lastVad = st.vtrace.getLastD 0) :
    getVADProbability (rnReset st freshMs) = 0 ∧
    (samples.length < ftotal →
      getVADProbability (rnProcess ftotal ev pf (rnInit ftotal ms) samples).1 = 0) ∧
    (ev = false →
      getVADProbability (rnProcess ftotal ev pf st samples).1 = getVADProbability st) ∧
    (ev = true →
      getVADProbability (rnProcess ftotal ev pf st samples).1 =
        ((rnProcess ftotal ev pf st samples).1.vtrace).getLastD 0) := by
  refine ⟨rfl, ?_, ?_, ?_⟩
  · intro hshort
    unfold rnProcess getVADProbability
    dsimp only
    have h := procLoop_no_drain ftotal ev pf (samples.map i16ToFloat).length
      (rnInit ftotal ms) (samples.map i16ToFloat) 0 (by
        simp only [rnInit, List.length_map]
        omega)
    rw [h.1]
    rfl
  · intro hev
    subst hev
    unfold rnProcess getVADProbability
    dsimp only
    rw [procLoop_vad_disabled]
  · intro hev
    subst hev
    unfold rnProcess getVADProbability
    dsimp only
    exact procLoop_vad_enabled ftotal pf _ st _ 0 (hinv rfl)

/-- Claim C10 witness: frame size 2, VAD enabled, identity model, one
sample of input (shorter than a frame). -/
theorem rnGetVADProbability_spec_witness :
    (true = true → (rnInit 2 ()).lastVad = ((rnInit 2 ()).vtrace).getLastD 0) ∧
    (getVADProbability (rnReset (rnInit 2 ()) ()) = 0 ∧
      (([(5 : ℤ)].length < 2) →
        getVADProbability (rnProcess 2 true pfId (rnInit 2 ()) [5]).1 = 0) ∧
      (true = false →
        getVADProbability (rnProcess 2 true pfId (rnInit 2 ()) [5]).1 =
          getVADProbability (rnInit 2 ())) ∧
      (true = true →
        getVADProbability (rnProcess 2 true pfId (rnInit 2 ()) [5]).1 =
          ((rnProcess 2 true pfId (rnInit 2 ()) [5]).1.vtrace).getLastD 0)) :=
  ⟨fun _ => rfl,
    rnGetVADProbability_spec 2 true pfId (rnInit 2 ()) [5] () () (fun _ => rfl)⟩

/-- Claim C9: in the passthrough build `Initialize` returns true for
every `(sample_rate, channels)` pair — the sample-rate validation exists
only in the library-enabled build, where an unsupported rate makes
`Initialize` return false. -/
theorem rnInitPassthrough_no_validation (sample_rate channels : ℤ) (createOk : Bool)
    (hunsup : sample_rate ∉ ({48000, 44100, 24000} : Finset ℤ)) :
    rnInitPassthroughOk sample_rate channels = true ∧
    (∀ sr ch : ℤ, rnInitPassthroughOk sr ch = true) ∧
    rnInitEnabledOk createOk sample_rate channels = false := by
  refine ⟨rfl, fun _ _ => rfl, ?_⟩
  simp only [Finset.mem_insert, Finset.mem_singleton] at hunsup
  push_neg at hunsup
  simp [rnInitEnabledOk, hunsup.1, hunsup.2.1, hunsup.2.2]

/-- Claim C9 witness: 16 kHz is outside the supported set; the
passthrough build still accepts it. -/
theorem rnInitPassthrough_no_validation_witness :
    ((16000 : ℤ) ∉ ({48000, 44100, 24000} : Finset ℤ)) ∧
    (rnInitPassthroughOk 16000 2 = true ∧
      (∀ sr ch : ℤ, rnInitPassthroughOk sr ch = true) ∧
      rnInitEnabledOk true 16000 2 = false) :=
  ⟨by decide, rnInitPassthrough_no_validation 16000 2 true (by decide)⟩

theorem rne_le (t : ℚ) : (rne t : ℚ) ≤ t + 1/2 := by
  have h1 : (⌊t⌋ : ℚ) ≤ t := Int.floor_le t
  have h2 : t < ⌊t⌋ + 1 := Int.lt_floor_add_one t
  simp only [rne]
  split_ifs with ha hb hc <;> push_cast <;> linarith

theorem rne_ge (t : ℚ) : t - 1/2 ≤ (rne t : ℚ) := by
  have h1 : (⌊t⌋ : ℚ) ≤ t := Int.floor_le t
  have h2 : t < ⌊t⌋ + 1 := Int.lt_floor_add_one t
  simp only [rne]
  split_ifs with ha hb hc <;> push_cast <;> linarith

theorem rne_intCast (m : ℤ) : rne (m : ℚ) = m := by
  simp [rne, Int.floor_intCast]

/-- Exact bounds on the rounded float multiply `(x/32768.0f) * 32767.0f`
for positive int16 input: the result lies in `[x - 1, x)`, so the cast
back to int16 truncates to exactly `x - 1`. -/
theorem rnd32_int_bounds (x : ℤ) (h1 : 1 ≤ x) (h2 : x ≤ 32767) :
    ((x : ℚ) - 1) ≤ rnd32 ((x : ℚ) * 32767 / 32768) ∧
    rnd32 ((x : ℚ) * 32767 / 32768) < (x : ℚ) := by
  have hx1 : (1 : ℚ) ≤ (x : ℚ) := by exact_mod_cast h1
  have hx2 : (x : ℚ) ≤ 32767 := by exact_mod_cast h2
  have hx0 : (0 : ℚ) < (x : ℚ) := by linarith
  set q : ℚ := (x : ℚ) * 32767 / 32768 with hqdef
  have hq0 : 0 < q := by
    rw [hqdef]
    positivity
  have hxq : (x : ℚ) - q = (x : ℚ) / 32768 := by rw [hqdef]; ring
  have hd32 : (0 : ℚ) < (x : ℚ) / 32768 := by positivity
  have hqx : q < (x : ℚ) := by linarith
  have hqx1 : (x : ℚ) - 1 < q := by
    have hlt1 : (x : ℚ) / 32768 < 1 := by
      rw [div_lt_one (by norm_num)]
      linarith
    linarith
  set e := Int.log 2 q with hedef
  have hlow : (2 : ℚ) ^ e ≤ q := by
    have h := @Int.zpow_log_le_self ℚ _ _ 2 _ (by norm_num) hq0
    rw [hedef]
    simpa using h
  have heup : e < 15 := by
    have h30 : q < ((2 : ℕ) : ℚ) ^ (15 : ℤ) := by
      have : ((2 : ℕ) : ℚ) ^ (15 : ℤ) = 32768 := by norm_num
      rw [this]
      linarith
    rw [hedef]
    exact (Int.lt_zpow_iff_log_lt (by norm_num) hq0).mp h30
  set d : ℕ := (23 - e).toNat with hddef
  have hd : (d : ℤ) = 23 - e := Int.toNat_of_nonneg (by omega)
  have hu : (2 : ℚ) ^ (e - 23) = ((2 : ℚ) ^ (d : ℤ))⁻¹ := by
    rw [← zpow_neg]
    congr 1
    omega
  have h2d0 : (0 : ℚ) < (2 : ℚ) ^ (d : ℤ) := zpow_pos (by norm_num) _
  have hkey : (2 : ℚ) ^ e * (2 : ℚ) ^ (d : ℤ) = 8388608 := by
    rw [← zpow_add₀ (by norm_num : (2 : ℚ) ≠ 0)]
    rw [show e + (d : ℤ) = 23 by omega]
    norm_num
  have hrw : rnd32 q = (rne (q * (2 : ℚ) ^ (d : ℤ)) : ℚ) * ((2 : ℚ) ^ (d : ℤ))⁻¹ := by
    simp only [rnd32, if_neg (ne_of_gt hq0), abs_of_pos hq0,
      if_neg (not_lt.mpr hq0.le), one_mul]
    rw [← hedef, hu, div_eq_mul_inv, inv_inv]
  set T := q * (2 : ℚ) ^ (d : ℤ) with hTdef
  have hgap : ((x : ℚ) - q) * (2 : ℚ) ^ (d : ℤ) ≥ 256 := by
    rw [hxq]
    have hx2e : (2 : ℚ) ^ e ≤ (x : ℚ) := le_trans hlow (le_of_lt hqx)
    have step1 : (2 : ℚ) ^ e / 32768 * (2 : ℚ) ^ (d : ℤ) ≤
        (x : ℚ) / 32768 * (2 : ℚ) ^ (d : ℤ) := by
      apply mul_le_mul_of_nonneg_right _ h2d0.le
      exact (div_le_div_iff_of_pos_right (by norm_num)).mpr hx2e
    have step2 : (2 : ℚ) ^ e / 32768 * (2 : ℚ) ^ (d : ℤ) = 256 := by
      rw [div_mul_eq_mul_div, hkey]
      norm_num
    linarith
  have hTu : T + 1 / 2 < (x : ℚ) * (2 : ℚ) ^ (d : ℤ) := by
    have hsplit : (x : ℚ) * (2 : ℚ) ^ (d : ℤ) - T = ((x : ℚ) - q) * (2 : ℚ) ^ (d : ℤ) := by
      rw [hTdef]; ring
    linarith
  have hTl : ((x : ℚ) - 1) * (2 : ℚ) ^ (d : ℤ) < T := by
    rw [hTdef]
    exact mul_lt_mul_of_pos_right hqx1 h2d0
  have hNQ : ((x * 2 ^ d : ℤ) : ℚ) = (x : ℚ) * (2 : ℚ) ^ (d : ℤ) := by
    push_cast
    rw [zpow_natCast]
  have hMQ : (((x - 1) * 2 ^ d : ℤ) : ℚ) = ((x : ℚ) - 1) * (2 : ℚ) ^ (d : ℤ) := by
    push_cast
    rw [zpow_natCast]
  have hrneU : (rne T : ℚ) < ((x * 2 ^ d : ℤ) : ℚ) := by
    rw [hNQ]
    calc (rne T : ℚ) ≤ T + 1 / 2 := rne_le T
      _ < (x : ℚ) * (2 : ℚ) ^ (d : ℤ) := hTu
  have hrneU2 : rne T ≤ x * 2 ^ d - 1 := by
    have : rne T < x * 2 ^ d := by exact_mod_cast hrneU
    omega
  have hrneL : (x - 1) * 2 ^ d ≤ rne T := by
    have hq1 : (((x - 1) * 2 ^ d : ℤ) : ℚ) - 1 < (rne T : ℚ) := by
      have := rne_ge T
      rw [hMQ]
      linarith
    have : ((x - 1) * 2 ^ d : ℤ) - 1 < rne T := by exact_mod_cast hq1
    omega
  constructor
  · rw [hrw]
    have hstep : (((x - 1) * 2 ^ d : ℤ) : ℚ) * ((2 : ℚ) ^ (d : ℤ))⁻¹ ≤
        (rne T : ℚ) * ((2 : ℚ) ^ (d : ℤ))⁻¹ := by
      apply mul_le_mul_of_nonneg_right _ (inv_nonneg.mpr h2d0.le)
      exact_mod_cast hrneL
    have hval : (((x - 1) * 2 ^ d : ℤ) : ℚ) * ((2 : ℚ) ^ (d : ℤ))⁻¹ = (x : ℚ) - 1 := by
      rw [hMQ]
      field_simp
    linarith
  · rw [hrw]
    have hstep : (rne T : ℚ) * ((2 : ℚ) ^ (d : ℤ))⁻¹ ≤
        ((x * 2 ^ d - 1 : ℤ) : ℚ) * ((2 : ℚ) ^ (d : ℤ))⁻¹ := by
      apply mul_le_mul_of_nonneg_right _ (inv_nonneg.mpr h2d0.le)
      exact_mod_cast hrneU2
    have hval : ((x * 2 ^ d - 1 : ℤ) : ℚ) * ((2 : ℚ) ^ (d : ℤ))⁻¹ =
        (x : ℚ) - ((2 : ℚ) ^ (d : ℤ))⁻¹ := by
      push_cast
      rw [zpow_natCast]
      field_simp
    have hinv : (0 : ℚ) < ((2 : ℚ) ^ (d : ℤ))⁻¹ := inv_pos.mpr h2d0
    linarith

theorem clampQ_of_mem {lo hi v : ℚ} (h1 : lo ≤ v) (h2 : v ≤ hi) :
    clampQ lo hi v = v := by
  rw [clampQ, min_eq_left h2, max_eq_right h1]

/-- Positive int16 inputs come back from the conversion round-trip as
exactly `x - 1`: the multiply rounds strictly below `x` but not below
`x - 1`, and the int16 cast truncates down. -/
theorem i16RoundTrip_pos (x : ℤ) (h1 : 1 ≤ x) (h2 : x ≤ 32767) :
    i16RoundTrip x = x - 1 := by
  have hx1 : (1 : ℚ) ≤ (x : ℚ) := by exact_mod_cast h1
  have hx2 : (x : ℚ) ≤ 32767 := by exact_mod_cast h2
  rw [i16RoundTrip, floatToI16, i16ToFloat]
  rw [clampQ_of_mem (by rw [le_div_iff (by norm_num)]; linarith)
    (by rw [div_le_one (by norm_num)]; linarith)]
  rw [div_mul_eq_mul_div]
  obtain ⟨hlo, hhi⟩ := rnd32_int_bounds x h1 h2
  rw [truncQ, if_neg (not_lt.mpr (by linarith))]
  rw [Int.floor_eq_iff]
  constructor
  · push_cast
    linarith
  · push_cast
    linarith

theorem rnd32_neg_eq (q : ℚ) : rnd32 (-q) = - rnd32 q := by
  by_cases hq : q = 0
  · subst hq
    norm_num [rnd32]
  · have hnq : -q ≠ 0 := neg_ne_zero.mpr hq
    rcases lt_or_gt_of_ne hq with hq2 | hq2
    · rw [rnd32, if_neg hnq, rnd32, if_neg hq]
      rw [abs_neg]
      rw [if_neg (not_lt.mpr (by linarith : (0:ℚ) ≤ -q)), if_pos hq2]
      ring
    · rw [rnd32, if_neg hnq, rnd32, if_neg hq]
      rw [abs_neg]
      rw [if_pos (by linarith : -q < 0), if_neg (not_lt.mpr (by linarith : (0:ℚ) ≤ q))]
      ring

/-- Negative int16 inputs in `[-32767, -1]` come back as exactly
`x + 1`: the rounded multiply lies in `(x, x + 1]` and the int16 cast
truncates toward zero. -/
theorem i16RoundTrip_neg (x : ℤ) (h1 : -32767 ≤ x) (h2 : x ≤ -1) :
    i16RoundTrip x = x + 1 := by
  have hx1 : (-32767 : ℚ) ≤ (x : ℚ) := by exact_mod_cast h1
  have hx2 : (x : ℚ) ≤ -1 := by exact_mod_cast h2
  rw [i16RoundTrip, floatToI16, i16ToFloat]
  rw [clampQ_of_mem (by rw [le_div_iff (by norm_num)]; linarith)
    (by rw [div_le_one (by norm_num)]; linarith)]
  rw [div_mul_eq_mul_div]
  have hyeq : (x : ℚ) * 32767 / 32768 = -((-x : ℤ) * 32767 / 32768 : ℚ) := by
    push_cast
    ring
  rw [hyeq, rnd32_neg_eq]
  obtain ⟨hlo, hhi⟩ := rnd32_int_bounds (-x) (by omega) (by omega)
  have hlo' : ((-x : ℤ) : ℚ) - 1 ≤ rnd32 (((-x : ℤ) : ℚ) * 32767 / 32768) := hlo
  have hcast : ((-x : ℤ) : ℚ) = -(x : ℚ) := by push_cast; ring
  rw [hcast] at hlo' hhi ⊢
  set W := rnd32 (-(x : ℚ) * 32767 / 32768) with hWdef
  by_cases hW : -W < 0
  · rw [truncQ, if_pos hW]
    rw [Int.ceil_eq_iff]
    constructor
    · push_cast
      linarith
    · push_cast
      linarith
  · have hW0 : W = 0 := by
      have hWge : (0 : ℚ) ≤ -W := not_lt.mp hW
      have hWle : -(x : ℚ) - 1 ≤ W := hlo'
      have : -W ≤ (x : ℚ) + 1 := by linarith
      have hx1' : (x : ℚ) + 1 ≤ 0 := by linarith
      linarith
    have hxm1 : x = -1 := by
      have : -(x : ℚ) - 1 ≤ 0 := by rw [← hW0]; exact hlo'
      have hxge : (-1 : ℚ) ≤ (x : ℚ) := by linarith
      have : (-1 : ℤ) ≤ x := by exact_mod_cast hxge
      omega
    rw [truncQ, if_neg hW, hW0]
    norm_num
    omega

theorem i16RoundTrip_zero : i16RoundTrip 0 = 0 := by
  rw [i16RoundTrip, floatToI16, i16ToFloat]
  norm_num [clampQ, rnd32, truncQ]

theorem rnd32_32767 : rnd32 (32767 : ℚ) = 32767 := by
  have hnat : Nat.log 2 32767 = 14 :=
    Nat.log_eq_of_pow_le_of_lt_pow (by norm_num) (by norm_num)
  have hlog : Int.log 2 (32767 : ℚ) = 14 := by
    rw [show (32767 : ℚ) = ((32767 : ℕ) : ℚ) by norm_num, Int.log_natCast, hnat]
    rfl
  simp only [rnd32, if_neg (show (32767 : ℚ) ≠ 0 by norm_num),
    if_neg (show ¬ (32767 : ℚ) < 0 by norm_num), one_mul,
    show |(32767 : ℚ)| = 32767 from by norm_num, hlog]
  rw [show (14 : ℤ) - 23 = -(9 : ℤ) by norm_num, zpow_neg]
  rw [div_eq_mul_inv, inv_inv]
  rw [show (32767 : ℚ) * (2 : ℚ) ^ (9 : ℤ) = ((16776704 : ℤ) : ℚ) by norm_num]
  rw [rne_intCast]
  norm_num

theorem i16RoundTrip_min : i16RoundTrip (-32768) = -32767 := by
  rw [i16RoundTrip, floatToI16, i16ToFloat]
  rw [show ((-32768 : ℤ) : ℚ) / 32768 = -1 by norm_num]
  rw [clampQ_of_mem (by norm_num) (by norm_num)]
  rw [show (-1 : ℚ) * 32767 = -(32767 : ℚ) by ring]
  rw [rnd32_neg_eq, rnd32_32767]
  rw [truncQ, if_pos (by norm_num)]
  rw [show (-(32767 : ℚ)) = ((-32767 : ℤ) : ℚ) by norm_num, Int.ceil_intCast]

/-- Claim C3 (amended): the denoiser conversion round-trip
(normalize by 32768, clamp, multiply by 32767, cast to int16) returns a
value within one LSB of the input for every representable int16 value,
and returns 0 exactly at 0 — but `-32768` maps to `-32767`, one LSB off,
not to itself.  (In fact the round-trip is `x - sign(x)` for nonzero
`x ≥ -32767`.) -/
theorem i16_roundtrip_spec (x : ℤ) (hlo : -32768 ≤ x) (hhi : x ≤ 32767) :
    |i16RoundTrip x - x| ≤ 1 ∧ i16RoundTrip 0 = 0 ∧ i16RoundTrip (-32768) = -32767 := by
  refine ⟨?_, i16RoundTrip_zero, i16RoundTrip_min⟩
  rcases lt_trichotomy x 0 with hneg | hzero | hpos
  · by_cases hmin : x = -32768
    · subst hmin
      rw [i16RoundTrip_min]
      decide
    · rw [i16RoundTrip_neg x (by omega) (by omega)]
      simp
  · subst hzero
    rw [i16RoundTrip_zero]
    decide
  · rw [i16RoundTrip_pos x (by omega) (by omega)]
    simp

/-- Claim C3, counterexample to the claim as stated: the round-trip is
not exact at `-32768`; it returns `-32767`. -/
theorem i16_roundtrip_cex :
    i16RoundTrip (-32768) = -32767 ∧ (-32767 : ℤ) ≠ -32768 :=
  ⟨i16RoundTrip_min, by decide⟩

/-- Claim C3 witness: the round-trip bound instantiated at `x = 5`. -/
theorem i16_roundtrip_spec_witness :
    ((-32768 : ℤ) ≤ 5 ∧ (5 : ℤ) ≤ 32767) ∧
    (|i16RoundTrip 5 - 5| ≤ 1 ∧ i16RoundTrip 0 = 0 ∧ i16RoundTrip (-32768) = -32767) :=
  ⟨⟨by decide, by decide⟩, i16_roundtrip_spec 5 (by decide) (by decide)⟩

theorem writeBack_get_ge (frame : List ℚ) :
    ∀ (flt : List ℚ) (s i : ℕ), s + frame.length ≤ i →
      (writeBack flt s frame).get? i = flt.get? i := by
  induction frame with
  | nil => intro flt s i _; rfl
  | cons v rest ih =>
    intro flt s i hi
    simp only [List.length_cons] at hi
    simp only [writeBack]
    rw [ih _ _ _ (by omega)]
    exact List.get?_set_ne v flt (by omega)

/-- The untouched-region property of the rebuffering loop: no write-back
touches a position at or beyond `inputPos + untouchedBound`, so the float
buffer is preserved there (first conjunct: when the remaining input
cannot complete a frame the float buffer is returned entirely
unchanged). -/
theorem procLoop_untouched (ftotal : ℕ) (ev : Bool) {σ : Type}
    (pf : σ → List ℚ → σ × List ℚ × ℚ) (hft : 0 < ftotal)
    (hpf : ∀ s f, ((pf s f).2.1).length = f.length) :
    ∀ (fuel : ℕ) (st : RNState σ) (flt : List ℚ) (ip : ℕ),
      st.pos < ftotal → st.rebuf.length = ftotal → flt.length - ip ≤ fuel →
      (st.pos + (flt.length - ip) < ftotal →
        (procLoop ftotal ev pf fuel st flt ip).2 = flt) ∧
      (∀ i, ip + untouchedBound ftotal st.pos (flt.length - ip) ≤ i →
        ((procLoop ftotal ev pf fuel st flt ip).2).get? i = flt.get? i) := by
  intro fuel
  induction fuel with
  | zero =>
    intro st flt ip hpos hrb hfu
    exact ⟨fun _ => rfl, fun i _ => rfl⟩
  | succ fuel ih =>
    intro st flt ip hpos hrb hfu
    by_cases hip : ip < flt.length
    · simp only [procLoop, if_pos hip]
      set t := min (ftotal - st.pos) (flt.length - ip) with htdef
      have ht1 : 1 ≤ t := by omega
      have ht2 : t ≤ ftotal - st.pos := min_le_left _ _
      have ht3 : t ≤ flt.length - ip := min_le_right _ _
      set rb1 := st.rebuf.take st.pos ++ (flt.drop ip).take t ++
        st.rebuf.drop (st.pos + t) with hrb1def
      have hrb1len : rb1.length = ftotal := by
        rw [hrb1def]
        simp only [List.length_append, List.length_take, List.length_drop, hrb]
        omega
      by_cases hdr : ftotal ≤ st.pos + t
      · rw [if_pos hdr]
        have hteq : t = ftotal - st.pos := by omega
        set pr := pf st.ms rb1 with hprdef
        set fl1 := writeBack flt (ip + t - t) pr.2.1 with hfl1def
        have hprlen : (pr.2.1).length = ftotal := by rw [hprdef, hpf, hrb1len]
        have hfl1len : fl1.length = flt.length := by
          rw [hfl1def]; exact writeBack_length _ _ _
        have hwb : ∀ j, ip + ftotal ≤ j → fl1.get? j = flt.get? j := by
          intro j hj
          rw [hfl1def]
          apply writeBack_get_ge
          rw [hprlen]
          omega
        have hrec := ih ⟨pr.1, pr.2.1, 0, if ev then pr.2.2 else st.lastVad,
            st.vtrace ++ [pr.2.2]⟩ fl1 (ip + t)
          (by dsimp only; omega) (by dsimp only; exact hprlen)
          (by rw [hfl1len]; omega)
        constructor
        · intro hsmall
          omega
        · intro i hi
          have hkk : (st.pos + (flt.length - ip)) / ftotal =
              (flt.length - (ip + t)) / ftotal + 1 := by
            rw [show st.pos + (flt.length - ip) = (flt.length - (ip + t)) + ftotal by
              omega]
            exact Nat.add_div_right _ hft
          have hkne : ¬ (st.pos + (flt.length - ip)) / ftotal = 0 := by
            rw [hkk]
            exact Nat.succ_ne_zero _
          rw [untouchedBound, if_neg hkne, hkk] at hi
          have hif : ip + ftotal ≤ i := by
            have hm := le_max_left ftotal
              (((flt.length - (ip + t)) / ftotal + 1) * ftotal - st.pos)
            omega
          refine Eq.trans (hrec.2 i ?_) (hwb i hif)
          dsimp only
          rw [hfl1len, untouchedBound, Nat.zero_add]
          by_cases hk10 : (flt.length - (ip + t)) / ftotal = 0
          · rw [if_pos hk10]
            have hm := le_max_left ftotal
              (((flt.length - (ip + t)) / ftotal + 1) * ftotal - st.pos)
            omega
          · rw [if_neg hk10]
            have hK : ftotal ≤ (flt.length - (ip + t)) / ftotal * ftotal :=
              Nat.le_mul_of_pos_left ftotal (Nat.pos_of_ne_zero hk10)
            have hmax1 : max ftotal ((flt.length - (ip + t)) / ftotal * ftotal - 0) =
                (flt.length - (ip + t)) / ftotal * ftotal := by
              apply max_eq_right
              omega
            have hmax2 : max ftotal
                (((flt.length - (ip + t)) / ftotal + 1) * ftotal - st.pos) =
                ((flt.length - (ip + t)) / ftotal + 1) * ftotal - st.pos := by
              apply max_eq_right
              rw [Nat.succ_mul]
              omega
            rw [hmax1]
            rw [hmax2] at hi
            rw [Nat.succ_mul] at hi
            omega
      · rw [if_neg hdr]
        have hteq : t = flt.length - ip := by omega
        have hrec := ih ⟨st.ms, rb1, st.pos + t, st.lastVad, st.vtrace⟩ flt (ip + t)
          (by dsimp only; omega) (by dsimp only; exact hrb1len) (by omega)
        have hfull : (procLoop ftotal ev pf fuel
            ⟨st.ms, rb1, st.pos + t, st.lastVad, st.vtrace⟩ flt (ip + t)).2 = flt := by
          apply hrec.1
          dsimp only
          omega
        refine ⟨fun _ => hfull, fun i hi => by rw [hfull]⟩
    · simp only [procLoop, if_neg hip]
      exact ⟨fun _ => trivial, fun i _ => trivial⟩

/-- Claim C1 (amended): in the library-enabled build, an input sample
still pending in the rebuffer when `Process` returns is NOT bit-identical
in the caller's buffer.  Every output position — including every pending
one — holds the int16 → float → int16 conversion round-trip of a float
value, and the positions from `untouchedBound` onwards (those reached by
no completed frame's write-back, which covers all samples pending at
return) hold exactly the round-trip of their own input sample, which
agrees with the input only to within one LSB (e.g. 32767 comes back as
32766). -/
theorem rnProcess_pending (ftotal : ℕ) (ev : Bool) {σ : Type}
    (pf : σ → List ℚ → σ × List ℚ × ℚ) (hft : 0 < ftotal)
    (hpf : ∀ s f, ((pf s f).2.1).length = f.length)
    (st : RNState σ) (samples : List ℤ)
    (hpos : st.pos < ftotal) (hrb : st.rebuf.length = ftotal) :
    ∀ i, untouchedBound ftotal st.pos samples.length ≤ i →
      ((rnProcess ftotal ev pf st samples).2).get? i
          = (samples.map i16RoundTrip).get? i ∧
        ∀ x, samples.get? i = some x → -32768 ≤ x → x ≤ 32767 →
          |i16RoundTrip x - x| ≤ 1 := by
  intro i hi
  constructor
  · have hlen : (samples.map i16ToFloat).length = samples.length :=
      List.length_map _ _
    have hh := (procLoop_untouched ftotal ev pf hft hpf
        (samples.map i16ToFloat).length st (samples.map i16ToFloat) 0
        hpos hrb (by omega)).2 i
      (by rw [Nat.zero_add, Nat.sub_zero, hlen]; exact hi)
    simp only [rnProcess]
    rw [List.get?_map, hh, List.get?_map, List.get?_map]
    cases samples.get? i <;> rfl
  · intro x _ hlo hhi
    rcases lt_trichotomy x 0 with hneg | hzero | hposx
    · by_cases hmin : x = -32768
      · subst hmin
        rw [i16RoundTrip_min]
        decide
      · rw [i16RoundTrip_neg x (by omega) (by omega)]
        simp
    · subst hzero
      rw [i16RoundTrip_zero]
      decide
    · rw [i16RoundTrip_pos x (by omega) (by omega)]
      simp

/-- Claim C1 witness: one sample into an empty two-sample rebuffer stays
pending; position 0 of the output is its conversion round-trip. -/
theorem rnProcess_pending_witness :
    (0 : ℕ) < 2 ∧
      (((rnProcess 2 false pfId (rnInit 2 ()) [3]).2).get? 0
          = (([3] : List ℤ).map i16RoundTrip).get? 0 ∧
        ∀ x, ([3] : List ℤ).get? 0 = some x → -32768 ≤ x → x ≤ 32767 →
          |i16RoundTrip x - x| ≤ 1) :=
  ⟨by decide,
    rnProcess_pending 2 false pfId (by decide) (fun _ _ => rfl)
      (rnInit 2 ()) [3] (by decide) (by simp [rnInit]) 0 (by decide)⟩

/-- Claim C1, counterexample to the claim as stated: with frame size 480
a single input sample remains pending in the rebuffer, yet 32767 comes
back from `Process` as 32766 — not bit-identical. -/
theorem rnProcess_pending_cex :
    (rnProcess 480 false pfId (rnInit 480 ()) [32767]).2 = [32766] ∧
      (32766 : ℤ) ≠ 32767 := by
  refine ⟨?_, by decide⟩
  have hlen : (([(32767 : ℤ)].map i16ToFloat)).length = 1 := by simp
  have hloop : (procLoop 480 false pfId ([(32767 : ℤ)].map i16ToFloat).length
      (rnInit 480 ()) ([(32767 : ℤ)].map i16ToFloat) 0).2
        = [(32767 : ℤ)].map i16ToFloat := by
    apply (procLoop_untouched 480 false pfId (by decide) (fun _ _ => rfl)
      _ _ _ 0 (by decide) (by simp [rnInit]) (by omega)).1
    rw [hlen]
    decide
  simp only [rnProcess]
  rw [hloop]
  simp only [List.map_cons, List.map_nil]
  rw [show floatToI16 (i16ToFloat 32767) = i16RoundTrip 32767 from rfl,
    i16RoundTrip_pos 32767 (by decide) (by decide)]
  decide

end FFVoice
